import Mathlib

/-!
# Pedometer user interface (`src/c/user_interface.c`)

A shallow embedding of the height-adjustment handlers, of the distance
computation and its text rendering (`update_number_steps_display`) and of the
main-menu dispatcher (`select_callback`).

* C `int` is a 32-bit two's-complement integer: every `int` operation that
  could leave the range is followed by `wrap_int`.
* C `double` is IEEE-754 binary64 with round-to-nearest-even, as on the ARM
  target of the watch.  The only
  floating-point operation of the file is one multiplication of an exactly
  converted `int` by the literal `0.00414`, followed by a truncating cast, so
  the embedding represents a double exactly as `mant / 2 ^ scale` and performs
  the rounding on natural numbers.
* Window, layer and font calls only draw; they are left out of the state.
-/

namespace UserInterface

/-! ## Machine arithmetic -/

/-- The 32-bit two's-complement `int` that holds the mathematical integer `x`. -/
def wrap_int (x : Int) : Int := (x + 2147483648) % 4294967296 - 2147483648

/-- A finite binary64 value, written exactly as `(-1)^neg * mant / 2 ^ scale`. -/
structure Double where
  neg : Bool
  mant : Nat
  scale : Nat
deriving DecidableEq

/-- Number of low-order bits that do not fit in a 53-bit significand: the least
`e` with `N / 2 ^ e < 2 ^ 53` (for `N < 2 ^ (53 + fuel)`). -/
def excess_bits : Nat → Nat → Nat
  | 0, _ => 0
  | fuel + 1, N => if N < 2 ^ 53 then 0 else excess_bits fuel (N / 2) + 1

/-- Round a natural number to 53 significant bits, to nearest, ties to even.
The product of two 53-bit significands is below `2 ^ 106`, so 64 units of fuel
always reach the leading bit. -/
def round_to_53_bits (N : Nat) : Nat :=
  let e := excess_bits 64 N
  let q := N / 2 ^ e
  let r := N % 2 ^ e
  if 2 ^ e < 2 * r ∨ (2 * r = 2 ^ e ∧ q % 2 = 1) then (q + 1) * 2 ^ e else q * 2 ^ e

/-- Conversion `int → double`; exact, since every `int` has fewer than 53 bits. -/
def int_to_double (x : Int) : Double := ⟨decide (x < 0), x.natAbs, 0⟩

/-- Binary64 multiplication: the exact product, correctly rounded. -/
def double_mul (a b : Double) : Double :=
  ⟨xor a.neg b.neg, round_to_53_bits (a.mant * b.mant), a.scale + b.scale⟩

/-- The cast `(int) d`: truncation toward zero. -/
def double_to_int (d : Double) : Int :=
  if d.neg then -((d.mant / 2 ^ d.scale : Nat) : Int) else ((d.mant / 2 ^ d.scale : Nat) : Int)

/-- The literal `0.00414` of `#define STRIDE_L_FACTOR 0.00414` as a binary64:
`4773095029072346 / 2 ^ 60`, the double nearest to `414 / 100000`
(see `STRIDE_L_FACTOR_nearest`). -/
def STRIDE_L_FACTOR : Double := ⟨false, 4773095029072346, 60⟩

/-! ## User height -/

/-- Modelled from the spec: `H_M` comes from `user_interface.h`, which is not
among the sources; the comment `[meters][centimeters]` on `user_height` puts
the metres at index 0. -/
def H_M : Nat := 0

/-- Modelled from the spec: `H_CM` comes from `user_interface.h`, which is not
among the sources; the comment `[meters][centimeters]` on `user_height` puts
the centimetres at index 1. -/
def H_CM : Nat := 1

/-- Read `user_height[i]` of the two-element array. -/
def rd (user_height : Int × Int) (i : Nat) : Int :=
  if i = 0 then user_height.1 else user_height.2

/-- Write `user_height[i] = v` of the two-element array. -/
def wr (user_height : Int × Int) (i : Nat) (v : Int) : Int × Int :=
  if i = 0 then (v, user_height.2) else (user_height.1, v)

/-- Initial value `int user_height[2] = {1,70}`. -/
def user_height_init : Int × Int := (1, 70)

/-- Body of `down_single_click_handler` on the global `user_height`. -/
def down_single_click_handler (user_height : Int × Int) : Int × Int :=
  let user_min_height : Int := 70
  if wrap_int (wrap_int (rd user_height H_M * 100) + rd user_height H_CM) ≤ user_min_height then
    user_height
  else if rd user_height H_M ≥ 0 ∧ wrap_int (rd user_height H_CM - 5) < 0 then
    if rd user_height H_M = 0 then
      wr user_height H_CM 0
    else
      let user_height := wr user_height H_CM 95
      wr user_height H_M (wrap_int (rd user_height H_M - 1))
  else
    wr user_height H_CM (wrap_int (rd user_height H_CM - 5))

/-- Body of `up_single_click_handler` on the global `user_height`. -/
def up_single_click_handler (user_height : Int × Int) : Int × Int :=
  if rd user_height H_M ≠ 3 ∧ wrap_int (rd user_height H_CM + 5) ≥ 100 then
    if rd user_height H_M = 2 then
      wr user_height H_CM 95
    else
      let user_height := wr user_height H_CM 0
      wr user_height H_M (wrap_int (rd user_height H_M + 1))
  else
    wr user_height H_CM (wrap_int (rd user_height H_CM + 5))

/-- The two buttons of the height window that change the height. -/
inductive Click
  | up
  | down
deriving DecidableEq

/-- One click of the height window. -/
def click (user_height : Int × Int) : Click → Int × Int
  | Click.up => up_single_click_handler user_height
  | Click.down => down_single_click_handler user_height

/-- The height after a sequence of clicks, oldest first. -/
def clicks (user_height : Int × Int) (cs : List Click) : Int × Int :=
  cs.foldl click user_height

/-- Total height in centimetres. -/
def total_cm (user_height : Int × Int) : Int :=
  rd user_height H_M * 100 + rd user_height H_CM

/-- The height domain: metres in {0,1,2}, centimetres in {0,5,...,95}, total
between 0.70 m and 2.95 m. -/
def ValidHeight (user_height : Int × Int) : Prop :=
  0 ≤ rd user_height H_M ∧ rd user_height H_M ≤ 2 ∧
  0 ≤ rd user_height H_CM ∧ rd user_height H_CM ≤ 95 ∧ rd user_height H_CM % 5 = 0 ∧
  70 ≤ total_cm user_height ∧ total_cm user_height ≤ 295

instance (user_height : Int × Int) : Decidable (ValidHeight user_height) := by
  unfold ValidHeight; infer_instance

/-! ## Distance and its rendering -/

/-- Right-hand side of
`distance_travelled = (int) (steps_number * (user_height[H_M]*100 + user_height[H_CM]) * STRIDE_L_FACTOR)`:
the `uint16_t` is promoted to `int`, the two `int` products are taken first and
the result is converted to `double` for the last multiplication. -/
def distance_of (steps_number : Nat) (user_height : Int × Int) : Int :=
  double_to_int
    (double_mul
      (int_to_double
        (wrap_int ((steps_number : Int) *
          wrap_int (wrap_int (rd user_height H_M * 100) + rd user_height H_CM))))
      STRIDE_L_FACTOR)

/-- Conversion `%u` of a non-negative value: its decimal digits. -/
def fmt_u (n : Nat) : List Char := Nat.toDigits 10 n

/-- Conversion `%d`: decimal digits, with a leading minus sign when negative. -/
def fmt_d (x : Int) : List Char :=
  if x < 0 then '-' :: Nat.toDigits 10 x.natAbs else Nat.toDigits 10 x.toNat

/-- What `snprintf(buf, size, ...)` stores for the fully formatted `text`: at most
`size - 1` characters. -/
def snprintf (size : Nat) (text : List Char) : List Char := text.take (size - 1)

/-- Common head `"Steps:\n%u\nDistance :\n"` of the four format strings. -/
def steps_header (steps_number : Nat) : List Char :=
  "Steps:\n".toList ++ fmt_u steps_number ++ "\nDistance :\n".toList

/-- The `if (distance_travelled>=1000) ... else ...` block of
`update_number_steps_display`: the text stored in `nb_steps_display`.  The
quotient, the product and the difference stay within `int`. -/
def steps_text (steps_number : Nat) (distance_travelled : Int) : List Char :=
  if distance_travelled ≥ 1000 then
    let kmetres := distance_travelled.tdiv 1000
    let metres := distance_travelled - 1000 * kmetres
    if metres < 10 then
      snprintf 60 (steps_header steps_number ++ fmt_d kmetres ++ ".00".toList ++ fmt_d metres
        ++ " km".toList)
    else if metres < 100 then
      snprintf 60 (steps_header steps_number ++ fmt_d kmetres ++ ".0".toList ++ fmt_d metres
        ++ " km".toList)
    else
      snprintf 60 (steps_header steps_number ++ fmt_d kmetres ++ ".".toList ++ fmt_d metres
        ++ " km".toList)
  else
    snprintf 60 (steps_header steps_number ++ fmt_d distance_travelled ++ " m".toList)

/-! ## Application state and the main menu -/

/-- The globals of the file that the menu reads or writes, together with the two
pieces of state kept by its collaborators: the step counter of the detection
engine and the accelerometer subscription. -/
structure App where
  user_height : Int × Int
  distance_travelled : Int
  first_call : Bool
  n_steps : Nat
  subscribed : Bool
  nb_steps_display : List Char
deriving DecidableEq

/-- State at start-up: `user_height = {1,70}`, `distance_travelled = 0`,
`first_call = true`, no step counted, no subscription, empty text buffer. -/
def App.init : App := ⟨user_height_init, 0, true, 0, false, []⟩

/-- `enum Menu_title {START_COUNT, CHANGE_HEIGHT, RESET, MAX_MENU}`. -/
def START_COUNT : Nat := 0

/-- Second enumerator of `Menu_title`. -/
def CHANGE_HEIGHT : Nat := 1

/-- Third enumerator of `Menu_title`. -/
def RESET : Nat := 2

/-- `update_number_steps_display(steps_number)`, with `steps_number` a `uint16_t`. -/
def update_number_steps_display (a : App) (steps_number : Nat) : App :=
  let distance_travelled := distance_of steps_number a.user_height
  { a with
    distance_travelled := distance_travelled
    nb_steps_display := steps_text steps_number distance_travelled }

/-- Modelled from the spec: `get_n_steps` belongs to `acceleration_process`,
which is not among the sources; `currentStepCount()` is a pure read of the
accumulated count.  The caller stores it in a `uint16_t`. -/
def get_n_steps (a : App) : Nat := a.n_steps % 65536

/-- Modelled from the spec: `reset_n_steps` belongs to `acceleration_process`,
which is not among the sources; `resetStepCount()` zeroes the count. -/
def reset_n_steps (a : App) : App := { a with n_steps := 0 }

/-- Modelled from the spec: `init_accel` belongs to `acceleration_process`,
which is not among the sources; `initDetection()` resets the detector and
subscribes to the sample source. -/
def init_accel (a : App) : App := { a with subscribed := true }

/-- Pebble SDK call `accel_data_service_unsubscribe()`: the subscription ends. -/
def accel_data_service_unsubscribe (a : App) : App := { a with subscribed := false }

/-- `open_step_display_window()`: besides drawing, it refreshes the step display
with `update_number_steps_display(get_n_steps())`. -/
def open_step_display_window (a : App) : App :=
  let n_step := get_n_steps a
  update_number_steps_display a n_step

/-- `open_user_height_window()`: only drawing and click configuration. -/
def open_user_height_window (a : App) : App := a

/-- `open_reset_window()`: only drawing and a timer that closes the window. -/
def open_reset_window (a : App) : App := a

/-- `select_callback`, as a function of the state and of `cell_index->row`. -/
def select_callback (a : App) (row : Nat) : App :=
  if row = START_COUNT then
    let a := open_step_display_window a
    if a.first_call = true then
      let a := init_accel a
      { a with first_call := false }
    else
      a
  else if row = CHANGE_HEIGHT then
    open_user_height_window a
  else if row = RESET then
    let a := { a with first_call := true }
    let a := reset_n_steps a
    let a := accel_data_service_unsubscribe a
    let a := { a with distance_travelled := 0 }
    open_reset_window a
  else
    a

/-- The calls and assignments `select_callback` performs. -/
inductive Effect
  | open_step_display_window
  | init_accel
  | assign_first_call (b : Bool)
  | open_user_height_window
  | reset_n_steps
  | accel_data_service_unsubscribe
  | assign_distance_travelled (v : Int)
  | open_reset_window
deriving DecidableEq

/-- What one effect does to the state. -/
def Effect.apply : Effect → App → App
  | Effect.open_step_display_window, a => UserInterface.open_step_display_window a
  | Effect.init_accel, a => UserInterface.init_accel a
  | Effect.assign_first_call b, a => { a with first_call := b }
  | Effect.open_user_height_window, a => UserInterface.open_user_height_window a
  | Effect.reset_n_steps, a => UserInterface.reset_n_steps a
  | Effect.accel_data_service_unsubscribe, a => UserInterface.accel_data_service_unsubscribe a
  | Effect.assign_distance_travelled v, a => { a with distance_travelled := v }
  | Effect.open_reset_window, a => UserInterface.open_reset_window a

/-- The effects of `select_callback` on `row`, in program order. -/
def select_callback_effects (a : App) (row : Nat) : List Effect :=
  if row = START_COUNT then
    Effect.open_step_display_window ::
      (if (open_step_display_window a).first_call = true then
        [Effect.init_accel, Effect.assign_first_call false]
      else
        [])
  else if row = CHANGE_HEIGHT then
    [Effect.open_user_height_window]
  else if row = RESET then
    [Effect.assign_first_call true, Effect.reset_n_steps, Effect.accel_data_service_unsubscribe,
      Effect.assign_distance_travelled 0, Effect.open_reset_window]
  else
    []

/-- Apply a list of effects in order. -/
def apply_effects (a : App) (es : List Effect) : App :=
  es.foldl (fun s e => e.apply s) a

/-- The states an effect list passes through, the starting state first. -/
def states_through (a : App) : List Effect → List App
  | [] => [a]
  | e :: es => a :: states_through (e.apply a) es

/-- The state after a sequence of menu selections, oldest first. -/
def run_menu (a : App) : List Nat → App
  | [] => a
  | row :: rows => run_menu (select_callback a row) rows

/-- The effects of a sequence of menu selections, in order. -/
def menu_trace (a : App) : List Nat → List Effect
  | [] => []
  | row :: rows => select_callback_effects a row ++ menu_trace (select_callback a row) rows

/-- Replay a trace from subscription status `subscribed` and report whether every
`init_accel` found the accelerometer unsubscribed. -/
def no_duplicate_subscription (subscribed : Bool) : List Effect → Bool
  | [] => true
  | Effect.init_accel :: es => !subscribed && no_duplicate_subscription true es
  | Effect.accel_data_service_unsubscribe :: es => no_duplicate_subscription false es
  | _ :: es => no_duplicate_subscription subscribed es


/-! ## Reference notions used to state the properties -/

/-- Nearest integer to `num / den` for `den > 0`, a half rounded up: the `round`
of the data-model invariant `Distance = round(StepCount × strideLength)`. -/
def round_div (num den : Int) : Int := (2 * num + den) / (2 * den)

/-- The number `r < 1000` written with exactly three decimal digits, zero-padded
on the left. -/
def three_digits (r : Nat) : List Char :=
  [Nat.digitChar (r / 100), Nat.digitChar (r / 10 % 10), Nat.digitChar (r % 10)]

/-- Read a list of decimal digit characters back as a number. -/
def read_decimal (cs : List Char) : Nat :=
  cs.foldl (fun acc c => 10 * acc + (c.toNat - 48)) 0

/-! ## Height handlers -/

theorem wrap_int_of_range (x : Int) (h1 : -2147483648 ≤ x) (h2 : x ≤ 2147483647) :
    wrap_int x = x := by
  unfold wrap_int
  omega

theorem up_single_click_handler_valid (u : Int × Int) (h : ValidHeight u) :
    ValidHeight (up_single_click_handler u) := by
  obtain ⟨m, cm⟩ := u
  simp only [ValidHeight, total_cm, up_single_click_handler, rd, wr, H_M, H_CM] at h ⊢
  simp only [if_true, if_false, one_ne_zero, ↓reduceIte] at h ⊢
  simp (disch := omega) only [wrap_int_of_range]
  split_ifs <;> simp only [if_true, if_false, one_ne_zero, ↓reduceIte] <;> omega

theorem down_single_click_handler_valid (u : Int × Int) (h : ValidHeight u) :
    ValidHeight (down_single_click_handler u) := by
  obtain ⟨m, cm⟩ := u
  simp only [ValidHeight, total_cm, down_single_click_handler, rd, wr, H_M, H_CM] at h ⊢
  simp only [if_true, if_false, one_ne_zero, ↓reduceIte] at h ⊢
  simp (disch := omega) only [wrap_int_of_range]
  split_ifs <;> simp only [if_true, if_false, one_ne_zero, ↓reduceIte] <;> omega

theorem clicks_valid (cs : List Click) (u : Int × Int) (h : ValidHeight u) :
    ValidHeight (clicks u cs) := by
  induction cs generalizing u with
  | nil => exact h
  | cons c cs ih =>
    have hstep : ValidHeight (click u c) := by
      cases c
      · exact up_single_click_handler_valid u h
      · exact down_single_click_handler_valid u h
    exact ih (click u c) hstep

/-- C1. Starting from `user_height = {1, 70}`, after every finite sequence of
`up_single_click_handler` and `down_single_click_handler` calls the total height
is between 70 and 295 cm and a multiple of 5, the metres are 0, 1 or 2 and the
centimetres are a multiple of 5 between 0 and 95. -/
theorem height_domain_invariant (cs : List Click) :
    70 ≤ rd (clicks user_height_init cs) H_M * 100 + rd (clicks user_height_init cs) H_CM ∧
    rd (clicks user_height_init cs) H_M * 100 + rd (clicks user_height_init cs) H_CM ≤ 295 ∧
    (rd (clicks user_height_init cs) H_M * 100 + rd (clicks user_height_init cs) H_CM) % 5 = 0 ∧
    (rd (clicks user_height_init cs) H_M = 0 ∨ rd (clicks user_height_init cs) H_M = 1 ∨
      rd (clicks user_height_init cs) H_M = 2) ∧
    0 ≤ rd (clicks user_height_init cs) H_CM ∧ rd (clicks user_height_init cs) H_CM ≤ 95 ∧
    rd (clicks user_height_init cs) H_CM % 5 = 0 := by
  have h := clicks_valid cs user_height_init (by decide)
  simp only [ValidHeight, total_cm] at h
  omega

/-- C2. `down_single_click_handler` leaves the height (0 m, 70 cm) unchanged and
`up_single_click_handler` leaves the height (2 m, 95 cm) unchanged. -/
theorem height_clamp_boundaries :
    down_single_click_handler (0, 70) = (0, 70) ∧ up_single_click_handler (2, 95) = (2, 95) := by
  decide

/-- C3. For every height of the valid domain with total `t`, an up click gives
total `t + 5` whenever `t < 295` and a down click gives total `t - 5` whenever
`70 < t`, across the metre carry and borrow as well; in both cases the resulting
centimetre field is between 0 and 95. -/
theorem height_step_five (u : Int × Int) (h : ValidHeight u) :
    (total_cm u < 295 →
      total_cm (up_single_click_handler u) = total_cm u + 5 ∧
      0 ≤ rd (up_single_click_handler u) H_CM ∧ rd (up_single_click_handler u) H_CM ≤ 95) ∧
    (70 < total_cm u →
      total_cm (down_single_click_handler u) = total_cm u - 5 ∧
      0 ≤ rd (down_single_click_handler u) H_CM ∧ rd (down_single_click_handler u) H_CM ≤ 95) := by
  obtain ⟨m, cm⟩ := u
  simp only [ValidHeight, total_cm, up_single_click_handler, down_single_click_handler, rd, wr,
    H_M, H_CM] at h ⊢
  simp only [if_true, if_false, one_ne_zero, ↓reduceIte] at h ⊢
  simp (disch := omega) only [wrap_int_of_range]
  constructor
  · intro hlt
    split_ifs <;> simp only [if_true, if_false, one_ne_zero, ↓reduceIte] <;> omega
  · intro hgt
    split_ifs <;> simp only [if_true, if_false, one_ne_zero, ↓reduceIte] <;> omega

/-- C3 witness: the height 0.95 m, next to the metre carry. -/
theorem height_step_five_witness :
    ValidHeight (0, 95) ∧ total_cm (0, 95) < 295 ∧ 70 < total_cm (0, 95) ∧
    (total_cm (up_single_click_handler (0, 95)) = total_cm (0, 95) + 5 ∧
      0 ≤ rd (up_single_click_handler (0, 95)) H_CM ∧
      rd (up_single_click_handler (0, 95)) H_CM ≤ 95) ∧
    (total_cm (down_single_click_handler (0, 95)) = total_cm (0, 95) - 5 ∧
      0 ≤ rd (down_single_click_handler (0, 95)) H_CM ∧
      rd (down_single_click_handler (0, 95)) H_CM ≤ 95) :=
  ⟨by decide, by decide, by decide,
    (height_step_five (0, 95) (by decide)).1 (by decide),
    (height_step_five (0, 95) (by decide)).2 (by decide)⟩

/-! ## Binary64 rounding -/

theorem STRIDE_L_FACTOR_nearest :
    2 ^ 52 ≤ STRIDE_L_FACTOR.mant ∧ STRIDE_L_FACTOR.mant < 2 ^ 53 ∧
    STRIDE_L_FACTOR.scale = 60 ∧ STRIDE_L_FACTOR.neg = false ∧
    2 * (414 * 2 ^ 60 - 100000 * STRIDE_L_FACTOR.mant) ≤ 100000 ∧
    100000 * STRIDE_L_FACTOR.mant < 414 * 2 ^ 60 := by
  decide

theorem excess_bits_le (fuel : Nat) : ∀ (N k : Nat), N < 2 ^ (53 + k) → excess_bits fuel N ≤ k := by
  induction fuel with
  | zero => intro N k _; simp [excess_bits]
  | succ fuel ih =>
    intro N k h
    unfold excess_bits
    split_ifs with hN
    · exact Nat.zero_le _
    · cases k with
      | zero => exact absurd h hN
      | succ k =>
        have h2 : N / 2 < 2 ^ (53 + k) := by
          have : 2 ^ (53 + (k + 1)) = 2 * 2 ^ (53 + k) := by
            rw [← Nat.add_assoc, Nat.pow_succ, Nat.mul_comm]
          omega
        have := ih (N / 2) k h2
        omega

/-- The shift chosen by `excess_bits` leaves a significand below `2 ^ 53`, and a
normalised one (at least `2 ^ 52`) whenever bits are dropped. -/
theorem excess_bits_spec (fuel : Nat) : ∀ N : Nat, N < 2 ^ (53 + fuel) →
    N / 2 ^ excess_bits fuel N < 2 ^ 53 ∧
    (0 < excess_bits fuel N → 2 ^ 52 ≤ N / 2 ^ excess_bits fuel N) := by
  induction fuel with
  | zero => intro N h; simpa [excess_bits] using h
  | succ fuel ih =>
    intro N h
    unfold excess_bits
    split_ifs with hN
    · simpa using hN
    · have h2 : N / 2 < 2 ^ (53 + fuel) := by
        have : 2 ^ (53 + (fuel + 1)) = 2 * 2 ^ (53 + fuel) := by
          rw [← Nat.add_assoc, Nat.pow_succ, Nat.mul_comm]
        omega
      obtain ⟨h3, h4⟩ := ih (N / 2) h2
      have hdiv : N / 2 ^ (excess_bits fuel (N / 2) + 1) = N / 2 / 2 ^ excess_bits fuel (N / 2) := by
        rw [Nat.pow_succ, Nat.mul_comm, Nat.div_div_eq_div_mul]
      rw [hdiv]
      refine ⟨h3, fun _ => ?_⟩
      by_cases he : 0 < excess_bits fuel (N / 2)
      · exact h4 he
      · have he0 : excess_bits fuel (N / 2) = 0 := by omega
        rw [he0]
        norm_num at hN ⊢
        omega

/-- The result of `round_to_53_bits` is a binary64 significand (at most `2 ^ 53`)
times the power of two of the dropped bits. -/
theorem round_to_53_bits_representable (N : Nat) (h : N < 2 ^ 117) :
    ∃ m : Nat, m ≤ 2 ^ 53 ∧ round_to_53_bits N = m * 2 ^ excess_bits 64 N := by
  obtain ⟨hq, _⟩ := excess_bits_spec 64 N (by norm_num at h ⊢; exact h)
  unfold round_to_53_bits
  simp only
  split_ifs
  · exact ⟨_, hq, rfl⟩
  · exact ⟨_, Nat.le_of_lt hq, rfl⟩

theorem round_to_53_bits_ge_of_dvd (N T : Nat) (hT : 2 ^ excess_bits 64 N ∣ T) (h : T ≤ N) :
    T ≤ round_to_53_bits N := by
  obtain ⟨t, rfl⟩ := hT
  have hP : 0 < 2 ^ excess_bits 64 N := Nat.pow_pos (by decide)
  have ht : t ≤ N / 2 ^ excess_bits 64 N := by
    rw [Nat.le_div_iff_mul_le hP, Nat.mul_comm]; exact h
  have hq : 2 ^ excess_bits 64 N * t ≤ N / 2 ^ excess_bits 64 N * 2 ^ excess_bits 64 N := by
    rw [Nat.mul_comm]; exact Nat.mul_le_mul_right _ ht
  unfold round_to_53_bits
  simp only
  split_ifs
  · exact le_trans hq (Nat.mul_le_mul_right _ (Nat.le_succ _))
  · exact hq

theorem round_to_53_bits_le_of_dvd (N T : Nat) (hT : 2 ^ excess_bits 64 N ∣ T) (h : N ≤ T) :
    round_to_53_bits N ≤ T := by
  obtain ⟨t, rfl⟩ := hT
  have hP : 0 < 2 ^ excess_bits 64 N := Nat.pow_pos (by decide)
  have hdm := Nat.div_add_mod N (2 ^ excess_bits 64 N)
  have hfl : N / 2 ^ excess_bits 64 N * 2 ^ excess_bits 64 N ≤ N := Nat.div_mul_le_self _ _
  unfold round_to_53_bits
  simp only
  split_ifs with hup
  · have hr : 0 < N % 2 ^ excess_bits 64 N := by omega
    have hlt : N / 2 ^ excess_bits 64 N < t := by
      by_contra hge
      push_neg at hge
      have h1 : 2 ^ excess_bits 64 N * t ≤ 2 ^ excess_bits 64 N * (N / 2 ^ excess_bits 64 N) :=
        Nat.mul_le_mul_left _ hge
      omega
    calc (N / 2 ^ excess_bits 64 N + 1) * 2 ^ excess_bits 64 N
        ≤ t * 2 ^ excess_bits 64 N := Nat.mul_le_mul_right _ hlt
      _ = 2 ^ excess_bits 64 N * t := Nat.mul_comm _ _
  · exact le_trans hfl h

theorem round_to_53_bits_near (N : Nat) :
    2 * round_to_53_bits N ≤ 2 * N + 2 ^ excess_bits 64 N := by
  have hdm := Nat.div_add_mod N (2 ^ excess_bits 64 N)
  have hfl : N / 2 ^ excess_bits 64 N * 2 ^ excess_bits 64 N ≤ N := Nat.div_mul_le_self _ _
  unfold round_to_53_bits
  simp only
  split_ifs with hup
  · have hc : 2 ^ excess_bits 64 N * (N / 2 ^ excess_bits 64 N) =
        N / 2 ^ excess_bits 64 N * 2 ^ excess_bits 64 N := Nat.mul_comm _ _
    rw [Nat.add_mul, Nat.one_mul]
    omega
  · omega


theorem excess_bits_product (n : Nat) (hn : n ≤ 19332825) :
    2 ^ excess_bits 64 (n * 4773095029072346) ≤ 2 ^ 25 ∧
    ∀ K : Nat, 2 ^ excess_bits 64 (n * 4773095029072346) ∣ K * 2 ^ 60 := by
  have he : excess_bits 64 (n * 4773095029072346) ≤ 25 := by
    apply excess_bits_le
    norm_num
    omega
  refine ⟨Nat.pow_le_pow_right (by decide) he, fun K => ?_⟩
  exact Dvd.dvd.mul_left (Nat.pow_dvd_pow 2 (by omega)) K

theorem metres_of_fractional_product (n : Nat) (hn : n ≤ 19332825) (hfrac : n * 207 % 50000 ≠ 0) :
    round_to_53_bits (n * 4773095029072346) / 2 ^ 60 = n * 207 / 50000 := by
  obtain ⟨hP, hdvd⟩ := excess_bits_product n hn
  have hnear := round_to_53_bits_near (n * 4773095029072346)
  have hlow := round_to_53_bits_ge_of_dvd (n * 4773095029072346) (n * 207 / 50000 * 2 ^ 60)
    (hdvd _) (by norm_num; omega)
  norm_num at hP hnear hlow ⊢
  omega

theorem metres_of_product (n : Nat) (hn : n ≤ 19332825) :
    round_to_53_bits (n * 4773095029072346) / 2 ^ 60 ≤ n * 207 / 50000 ∧
    n * 207 / 50000 ≤ round_to_53_bits (n * 4773095029072346) / 2 ^ 60 + 1 := by
  obtain ⟨hP, hdvd⟩ := excess_bits_product n hn
  have hnear := round_to_53_bits_near (n * 4773095029072346)
  have hlow := round_to_53_bits_ge_of_dvd (n * 4773095029072346) ((n * 207 / 50000 - 1) * 2 ^ 60)
    (hdvd _) (by norm_num; omega)
  norm_num at hP hnear hlow ⊢
  omega

theorem distance_of_eq (s : Nat) (u : Int × Int) (hs : s < 65536)
    (hm : 0 ≤ rd u H_M) (hcm : 0 ≤ rd u H_CM) (hlo : 70 ≤ total_cm u) (hhi : total_cm u ≤ 295) :
    s * (total_cm u).toNat ≤ 19332825 ∧
    wrap_int ((s : Int) * wrap_int (wrap_int (rd u H_M * 100) + rd u H_CM)) =
      ((s * (total_cm u).toNat : Nat) : Int) ∧
    distance_of s u =
      ((round_to_53_bits (s * (total_cm u).toNat * 4773095029072346) / 2 ^ 60 : Nat) : Int) := by
  obtain ⟨m, cm⟩ := u
  simp only [total_cm, rd, H_M, H_CM, if_true, if_false, one_ne_zero, ↓reduceIte] at hm hcm hlo hhi ⊢
  obtain ⟨h, hh⟩ : ∃ h : Nat, m * 100 + cm = (h : Int) := ⟨(m * 100 + cm).toNat, by omega⟩
  have hh70 : 70 ≤ h := by omega
  have hh295 : h ≤ 295 := by omega
  have hprod : s * h ≤ 19332825 := by
    calc s * h ≤ 65535 * 295 := Nat.mul_le_mul (by omega) hh295
      _ = 19332825 := by norm_num
  have hw1 : wrap_int (m * 100) = m * 100 := wrap_int_of_range _ (by omega) (by omega)
  have hw2 : wrap_int (m * 100 + cm) = (h : Int) := by
    rw [wrap_int_of_range _ (by omega) (by omega)]; exact hh
  have hw3 : wrap_int ((s : Int) * (h : Int)) = ((s * h : Nat) : Int) := by
    rw [wrap_int_of_range]
    · push_cast; rfl
    · exact_mod_cast (by omega : (-2147483648 : Int) ≤ ((s * h : Nat) : Int))
    · exact_mod_cast (by omega : ((s * h : Nat) : Int) ≤ 2147483647)
  have htn : (m * 100 + cm).toNat = h := by omega
  refine ⟨by rw [htn]; exact hprod, by rw [hw1, hw2, hw3, htn], ?_⟩
  unfold distance_of
  simp only [rd, H_M, H_CM, if_true, if_false, one_ne_zero, ↓reduceIte]
  rw [hw1, hw2, hw3, htn]
  have hnn : ¬ ((s : Int) * (h : Int) < 0) := not_lt.mpr (Int.mul_nonneg (Int.ofNat_nonneg s) (Int.ofNat_nonneg h))
  simp [int_to_double, double_mul, double_to_int, STRIDE_L_FACTOR, hnn, Int.natAbs_mul]

theorem distance_arithmetic_bound (s : Nat) (u : Int × Int) (hs : s < 65536)
    (hm : 0 ≤ rd u H_M) (hcm : 0 ≤ rd u H_CM) (hlo : 70 ≤ total_cm u) (hhi : total_cm u ≤ 295) :
    0 ≤ distance_of s u ∧ distance_of s u ≤ 80037 := by
  obtain ⟨hprod, _, hd⟩ := distance_of_eq s u hs hm hcm hlo hhi
  obtain ⟨hle, _⟩ := metres_of_product _ hprod
  rw [hd]
  omega

theorem distance_of_valid (s : Nat) (u : Int × Int) (hs : s < 65536) (hu : ValidHeight u) :
    ∃ n d q r : Nat, (s : Int) * total_cm u = (n : Int) ∧ distance_of s u = (d : Int) ∧
      n * 207 = 50000 * q + r ∧ r < 50000 ∧ d ≤ q ∧ q ≤ d + 1 ∧ (r ≠ 0 → d = q) := by
  obtain ⟨hm, _, hcm, _, _, hlo, hhi⟩ := hu
  obtain ⟨hprod, _, hd⟩ := distance_of_eq s u hs hm hcm hlo hhi
  obtain ⟨hle, hge⟩ := metres_of_product _ hprod
  refine ⟨s * (total_cm u).toNat, _, s * (total_cm u).toNat * 207 / 50000,
    s * (total_cm u).toNat * 207 % 50000, ?_, hd, (Nat.div_add_mod _ _).symm,
    Nat.mod_lt _ (by decide), hle, hge, metres_of_fractional_product _ hprod⟩
  have : ((total_cm u).toNat : Int) = total_cm u := Int.toNat_of_nonneg (by omega)
  push_cast
  rw [this]

/-- C4 (as amended). For every 16-bit step count and every height of the valid
domain, `distance_travelled` equals `floor(s * h * 414 / 100000)` whenever that
product is not a whole number of metres; when it is whole, the binary64 product
may fall just below it and the result is that number or one less.  With height
1.70 m, 1000 steps give 703 and 2000 steps give 1407. -/
theorem distance_floor_off_whole_metres (s : Nat) (u : Int × Int) (hs : s < 65536)
    (hu : ValidHeight u) :
    ((s : Int) * total_cm u * 414 % 100000 ≠ 0 →
      distance_of s u = (s : Int) * total_cm u * 414 / 100000) ∧
    ((s : Int) * total_cm u * 414 % 100000 = 0 →
      distance_of s u = (s : Int) * total_cm u * 414 / 100000 ∨
      distance_of s u = (s : Int) * total_cm u * 414 / 100000 - 1) ∧
    distance_of 1000 (1, 70) = 703 ∧ distance_of 2000 (1, 70) = 1407 := by
  obtain ⟨n, d, q, r, hn, hd, hq, hr, hle, hge, hfrac⟩ := distance_of_valid s u hs hu
  rw [hn, hd]
  have hdiv : (n : Int) * 414 / 100000 = (q : Int) := by omega
  have hmod : (n : Int) * 414 % 100000 = 2 * (r : Int) := by omega
  rw [hdiv, hmod]
  refine ⟨fun h => ?_, fun h => ?_, by decide, by decide⟩
  · have := hfrac (by omega)
    omega
  · omega

/-- C4 witness: 1234 steps (fractional product) and 5000 steps (whole product) at
1.70 m. -/
theorem distance_floor_off_whole_metres_witness :
    1234 < 65536 ∧ 5000 < 65536 ∧ ValidHeight (1, 70) ∧
    (1234 : Int) * total_cm (1, 70) * 414 % 100000 ≠ 0 ∧
    distance_of 1234 (1, 70) = (1234 : Int) * total_cm (1, 70) * 414 / 100000 ∧
    (5000 : Int) * total_cm (1, 70) * 414 % 100000 = 0 ∧
    (distance_of 5000 (1, 70) = (5000 : Int) * total_cm (1, 70) * 414 / 100000 ∨
      distance_of 5000 (1, 70) = (5000 : Int) * total_cm (1, 70) * 414 / 100000 - 1) :=
  ⟨by decide, by decide, by decide, by decide,
    (distance_floor_off_whole_metres 1234 (1, 70) (by decide) (by decide)).1 (by decide),
    by decide,
    (distance_floor_off_whole_metres 5000 (1, 70) (by decide) (by decide)).2.1 (by decide)⟩

/-- C4 (counterexample). With 5000 steps at 1.70 m the exact product
`5000 * 170 * 0.00414` is 3519, but the binary64 product is just below it and
the cast stores 3518. -/
theorem distance_floor_formula_counterexample :
    5000 < 65536 ∧ ValidHeight (1, 70) ∧ distance_of 5000 (1, 70) = 3518 ∧
    (5000 : Int) * total_cm (1, 70) * 414 / 100000 = 3519 := by
  decide

/-- C5 (as amended). The distance is the product truncated, not rounded: it never
exceeds `s * h * 414 / 100000` and is at most one below it; it equals the nearest
integer when the fractional part lies strictly between 0 and 1/2, it is one less
than the nearest integer when the fractional part is 1/2 or more, and when the
product is a whole number it is that number or one less. -/
theorem distance_truncates (s : Nat) (u : Int × Int) (hs : s < 65536) (hu : ValidHeight u) :
    distance_of s u * 100000 ≤ (s : Int) * total_cm u * 414 ∧
    (s : Int) * total_cm u * 414 ≤ (distance_of s u + 1) * 100000 ∧
    (0 < (s : Int) * total_cm u * 414 % 100000 ∧ 2 * ((s : Int) * total_cm u * 414 % 100000) < 100000 →
      distance_of s u = round_div ((s : Int) * total_cm u * 414) 100000) ∧
    (100000 ≤ 2 * ((s : Int) * total_cm u * 414 % 100000) →
      distance_of s u = round_div ((s : Int) * total_cm u * 414) 100000 - 1) ∧
    ((s : Int) * total_cm u * 414 % 100000 = 0 →
      distance_of s u = round_div ((s : Int) * total_cm u * 414) 100000 ∨
      distance_of s u = round_div ((s : Int) * total_cm u * 414) 100000 - 1) := by
  obtain ⟨n, d, q, r, hn, hd, hq, hr, hle, hge, hfrac⟩ := distance_of_valid s u hs hu
  rw [hn, hd]
  unfold round_div
  have hmod : (n : Int) * 414 % 100000 = 2 * (r : Int) := by omega
  have hlo : 4 * r < 100000 → (2 * ((n : Int) * 414) + 100000) / (2 * 100000) = (q : Int) := by
    intro h; omega
  have hhi : 100000 ≤ 4 * r → (2 * ((n : Int) * 414) + 100000) / (2 * 100000) = (q : Int) + 1 := by
    intro h; omega
  rw [hmod]
  refine ⟨by omega, by omega, fun h => ?_, fun h => ?_, fun h => ?_⟩
  · have := hfrac (by omega)
    rw [hlo (by omega)]
    omega
  · have := hfrac (by omega)
    rw [hhi (by omega)]
    omega
  · rw [hlo (by omega)]
    omega

/-- C5 witness: at 1.70 m, 1234 steps (868.49, fraction below 1/2) and 1000
steps (703.8, fraction above 1/2). -/
theorem distance_truncates_witness :
    1234 < 65536 ∧ 1000 < 65536 ∧ ValidHeight (1, 70) ∧
    (0 < (1234 : Int) * total_cm (1, 70) * 414 % 100000 ∧
      2 * ((1234 : Int) * total_cm (1, 70) * 414 % 100000) < 100000) ∧
    distance_of 1234 (1, 70) = round_div ((1234 : Int) * total_cm (1, 70) * 414) 100000 ∧
    100000 ≤ 2 * ((1000 : Int) * total_cm (1, 70) * 414 % 100000) ∧
    distance_of 1000 (1, 70) = round_div ((1000 : Int) * total_cm (1, 70) * 414) 100000 - 1 :=
  ⟨by decide, by decide, by decide, by decide,
    (distance_truncates 1234 (1, 70) (by decide) (by decide)).2.2.1 (by decide),
    by decide,
    (distance_truncates 1000 (1, 70) (by decide) (by decide)).2.2.2.1 (by decide)⟩

/-- C5 (counterexample). With 1000 steps at 1.70 m the product is 703.8: the
nearest integer is 704, the code stores 703. -/
theorem distance_rounding_counterexample :
    1000 < 65536 ∧ ValidHeight (1, 70) ∧ distance_of 1000 (1, 70) = 703 ∧
    round_div ((1000 : Int) * total_cm (1, 70) * 414) 100000 = 704 := by
  decide

/-- C10. For every `uint16_t` step count and every height with non-negative
fields and a total between 70 and 295 cm, the `int` product `s * h` is at most
19,332,825, below `2 ^ 31`, so no `int` operation wraps, and the distance lies
between 0 and 80037, within the range of `int`. -/
theorem distance_arithmetic_in_range (s : Nat) (u : Int × Int) (hs : s < 65536)
    (hm : 0 ≤ rd u H_M) (hcm : 0 ≤ rd u H_CM) (hlo : 70 ≤ total_cm u) (hhi : total_cm u ≤ 295) :
    0 ≤ (s : Int) * total_cm u ∧ (s : Int) * total_cm u ≤ 19332825 ∧
    (19332825 : Int) < 2 ^ 31 ∧
    wrap_int ((s : Int) * wrap_int (wrap_int (rd u H_M * 100) + rd u H_CM)) =
      (s : Int) * total_cm u ∧
    0 ≤ distance_of s u ∧ distance_of s u ≤ 80037 := by
  obtain ⟨hprod, hw, hd⟩ := distance_of_eq s u hs hm hcm hlo hhi
  obtain ⟨hle, _⟩ := metres_of_product _ hprod
  have ht : ((total_cm u).toNat : Int) = total_cm u := Int.toNat_of_nonneg (by omega)
  have hcast : (s : Int) * total_cm u = ((s * (total_cm u).toNat : Nat) : Int) := by
    push_cast; rw [ht]
  rw [hw, hd, hcast]
  refine ⟨by omega, by omega, by norm_num, rfl, by omega, by omega⟩

/-- C10 witness: the largest step count at the largest height. -/
theorem distance_arithmetic_in_range_witness :
    65535 < 65536 ∧ 0 ≤ rd (2, 95) H_M ∧ 0 ≤ rd (2, 95) H_CM ∧
    70 ≤ total_cm (2, 95) ∧ total_cm (2, 95) ≤ 295 ∧
    0 ≤ (65535 : Int) * total_cm (2, 95) ∧ (65535 : Int) * total_cm (2, 95) ≤ 19332825 ∧
    (19332825 : Int) < 2 ^ 31 ∧
    wrap_int ((65535 : Int) * wrap_int (wrap_int (rd (2, 95) H_M * 100) + rd (2, 95) H_CM)) =
      (65535 : Int) * total_cm (2, 95) ∧
    0 ≤ distance_of 65535 (2, 95) ∧ distance_of 65535 (2, 95) ≤ 80037 :=
  ⟨by decide, by decide, by decide, by decide, by decide,
    distance_arithmetic_in_range 65535 (2, 95) (by decide) (by decide) (by decide) (by decide)
      (by decide)⟩

/-! ## Rendering of the distance -/

theorem toDigits_one (r : Nat) (h : r < 10) : Nat.toDigits 10 r = [Nat.digitChar r] := by
  have h1 : r / 10 = 0 := by omega
  have h2 : r % 10 = r := by omega
  simp [Nat.toDigits, Nat.toDigitsCore, h1, h2]

theorem toDigits_two (r : Nat) (h1 : 10 ≤ r) (h2 : r < 100) :
    Nat.toDigits 10 r = [Nat.digitChar (r / 10), Nat.digitChar (r % 10)] := by
  obtain ⟨k, rfl⟩ : ∃ k, r = k + 1 := ⟨r - 1, by omega⟩
  have e1 : (k + 1) / 10 ≠ 0 := by omega
  have e2 : (k + 1) / 10 / 10 = 0 := by omega
  have e3 : (k + 1) / 10 % 10 = (k + 1) / 10 := by omega
  simp [Nat.toDigits, Nat.toDigitsCore, e1, e2, e3]

theorem toDigits_three (r : Nat) (h1 : 100 ≤ r) (h2 : r < 1000) :
    Nat.toDigits 10 r = [Nat.digitChar (r / 100), Nat.digitChar (r / 10 % 10), Nat.digitChar (r % 10)] := by
  obtain ⟨k, rfl⟩ : ∃ k, r = k + 2 := ⟨r - 2, by omega⟩
  have e1 : (k + 2) / 10 ≠ 0 := by omega
  have e2 : (k + 2) / 10 / 10 ≠ 0 := by omega
  have e3 : (k + 2) / 10 / 10 / 10 = 0 := by omega
  have e4 : (k + 2) / 10 / 10 % 10 = (k + 2) / 100 := by omega
  simp [Nat.toDigits, Nat.toDigitsCore, e1, e2, e3, e4]

theorem digitChar_value : ∀ k, k < 10 → (Nat.digitChar k).toNat - 48 = k := by decide

theorem toDigits_length_le (n e : Nat) (he : 0 < e) (h : n < 10 ^ e) :
    (Nat.toDigits 10 n).length ≤ e :=
  Nat.toDigitsCore_length 10 (by decide) (n + 1) n e h he

theorem snprintf_fits (text : List Char) (h : text.length ≤ 59) : snprintf 60 text = text :=
  List.take_of_length_le h

theorem fmt_d_natCast (k : Nat) : fmt_d (k : Int) = Nat.toDigits 10 k := by
  have h : ¬ ((k : Int) < 0) := by omega
  simp [fmt_d, h]

theorem read_decimal_three_digits (r : Nat) (h : r < 1000) :
    read_decimal (three_digits r) = r := by
  have a := digitChar_value (r / 100) (by omega)
  have b := digitChar_value (r / 10 % 10) (by omega)
  have c := digitChar_value (r % 10) (by omega)
  simp only [read_decimal, three_digits, List.foldl]
  omega

theorem steps_text_km (s n : Nat) (hs : s < 65536) (h1 : 1000 ≤ n) (h2 : n < 100000) :
    steps_text s (n : Int) =
      steps_header s ++ Nat.toDigits 10 (n / 1000) ++ ".".toList ++ three_digits (n % 1000)
        ++ " km".toList := by
  have hk : (n : Int).tdiv 1000 = ((n / 1000 : Nat) : Int) := (Int.ofNat_tdiv n 1000).symm
  have hr : (n : Int) - 1000 * ((n / 1000 : Nat) : Int) = ((n % 1000 : Nat) : Int) := by omega
  have hls := toDigits_length_le s 5 (by decide) (by norm_num; omega)
  have hlk := toDigits_length_le (n / 1000) 2 (by decide) (by norm_num; omega)
  have hge : (n : Int) ≥ 1000 := by omega
  have hfit : ∀ ds : List Char, ds.length = 3 →
      snprintf 60 (steps_header s ++ Nat.toDigits 10 (n / 1000) ++ ".".toList ++ ds ++ " km".toList)
        = steps_header s ++ Nat.toDigits 10 (n / 1000) ++ ".".toList ++ ds ++ " km".toList := by
    intro ds hds
    apply snprintf_fits
    simp [steps_header, fmt_u, hds]
    omega
  unfold steps_text
  rw [if_pos hge]
  simp only [hk, hr, fmt_d_natCast]
  by_cases c1 : n % 1000 < 10
  · have e1 : n % 1000 / 100 = 0 := by omega
    have e2 : n % 1000 / 10 % 10 = 0 := by omega
    have e3 : n % 1000 % 10 = n % 1000 := by omega
    have c1z : ((n % 1000 : Nat) : Int) < 10 := by omega
    rw [if_pos c1z, toDigits_one _ c1, ← hfit (three_digits (n % 1000)) rfl]
    have z : Nat.digitChar 0 = '0' := rfl
    simp [three_digits, e1, e2, e3, z]
  · by_cases c2 : n % 1000 < 100
    · have e1 : n % 1000 / 100 = 0 := by omega
      have e2 : n % 1000 / 10 % 10 = n % 1000 / 10 := by omega
      have c1z : ¬ ((n % 1000 : Nat) : Int) < 10 := by omega
      have c2z : ((n % 1000 : Nat) : Int) < 100 := by omega
      rw [if_neg c1z, if_pos c2z, toDigits_two _ (by omega) c2,
        ← hfit (three_digits (n % 1000)) rfl]
      have z : Nat.digitChar 0 = '0' := rfl
      simp [three_digits, e1, e2, z]
    · have c1z : ¬ ((n % 1000 : Nat) : Int) < 10 := by omega
      have c2z : ¬ ((n % 1000 : Nat) : Int) < 100 := by omega
      rw [if_neg c1z, if_neg c2z, toDigits_three _ (by omega) (Nat.mod_lt _ (by decide)),
        ← hfit (three_digits (n % 1000)) rfl]
      simp [three_digits]

theorem steps_text_m (s n : Nat) (hs : s < 65536) (h : n < 1000) :
    steps_text s (n : Int) = steps_header s ++ Nat.toDigits 10 n ++ " m".toList := by
  have hls := toDigits_length_le s 5 (by decide) (by norm_num; omega)
  have hln := toDigits_length_le n 3 (by decide) (by norm_num; omega)
  have hlt : ¬ ((n : Int) ≥ 1000) := by omega
  unfold steps_text
  rw [if_neg hlt, fmt_d_natCast]
  apply snprintf_fits
  simp [steps_header, fmt_u]
  omega

/-- C9. For every 16-bit step count and every height of the valid domain, when
the computed distance `d` is at least 1000 the text stored by
`update_number_steps_display` is the header followed by `d / 1000`, a dot, and
`d mod 1000` written with exactly three digits zero-padded on the left, then
` km`, and `(d / 1000) * 1000` plus the three digits read back equals `d`; when
`d` is below 1000 the text is the header followed by `d` itself and ` m`. -/
theorem kilometre_display_faithful (a : App) (s : Nat) (hs : s < 65536)
    (hu : ValidHeight a.user_height) :
    (1000 ≤ (update_number_steps_display a s).distance_travelled →
      (update_number_steps_display a s).nb_steps_display =
        steps_header s ++
          Nat.toDigits 10 ((update_number_steps_display a s).distance_travelled.toNat / 1000) ++
          ".".toList ++
          three_digits ((update_number_steps_display a s).distance_travelled.toNat % 1000) ++
          " km".toList ∧
      (three_digits ((update_number_steps_display a s).distance_travelled.toNat % 1000)).length
        = 3 ∧
      (((update_number_steps_display a s).distance_travelled.toNat / 1000 * 1000 +
        read_decimal
          (three_digits ((update_number_steps_display a s).distance_travelled.toNat % 1000))
          : Nat) : Int) = (update_number_steps_display a s).distance_travelled) ∧
    ((update_number_steps_display a s).distance_travelled < 1000 →
      (update_number_steps_display a s).nb_steps_display =
        steps_header s ++
          Nat.toDigits 10 (update_number_steps_display a s).distance_travelled.toNat ++
          " m".toList) := by
  obtain ⟨n, d, q, r, hn, hd, hq, hr, hle, hge, hfrac⟩ := distance_of_valid s a.user_height hs hu
  obtain ⟨hm, _, hcm, _, _, hlo, hhi⟩ := hu
  have hbound := (distance_arithmetic_bound s a.user_height hs hm hcm hlo hhi)
  simp only [update_number_steps_display]
  rw [hd] at hbound ⊢
  have hd80 : d ≤ 80037 := by omega
  simp only [Int.toNat_ofNat]
  constructor
  · intro h
    have h1000 : 1000 ≤ d := by omega
    refine ⟨steps_text_km s d hs h1000 (by omega), rfl, ?_⟩
    rw [read_decimal_three_digits _ (Nat.mod_lt _ (by decide))]
    have := Nat.div_add_mod d 1000
    omega
  · intro h
    exact steps_text_m s d hs (by omega)

/-- C9 witness: at the initial height 1.70 m, 2000 steps (1407 m, shown in
kilometres) and 20 steps (14 m, shown in metres). -/
theorem kilometre_display_faithful_witness :
    2000 < 65536 ∧ 20 < 65536 ∧ ValidHeight App.init.user_height ∧
    (update_number_steps_display App.init 2000).distance_travelled = 1407 ∧
    (update_number_steps_display App.init 2000).nb_steps_display =
      steps_header 2000 ++ Nat.toDigits 10 1 ++ ".".toList ++ three_digits 407 ++ " km".toList ∧
    (update_number_steps_display App.init 20).distance_travelled = 14 ∧
    (update_number_steps_display App.init 20).nb_steps_display =
      steps_header 20 ++ Nat.toDigits 10 14 ++ " m".toList :=
  ⟨by decide, by decide, by decide, by decide,
    ((kilometre_display_faithful App.init 2000 (by decide) (by decide)).1 (by decide)).1,
    by decide,
    (kilometre_display_faithful App.init 20 (by decide) (by decide)).2 (by decide)⟩

/-! ## Main menu -/

theorem select_callback_eq_apply_effects (a : App) (row : Nat) :
    select_callback a row = apply_effects a (select_callback_effects a row) := by
  unfold select_callback select_callback_effects apply_effects
  dsimp only
  split_ifs <;> rfl

theorem select_callback_invariant (a : App) (row : Nat) (h : a.first_call = !a.subscribed) :
    (select_callback a row).first_call = !(select_callback a row).subscribed ∧
    ∀ es : List Effect,
      no_duplicate_subscription a.subscribed (select_callback_effects a row ++ es) =
        no_duplicate_subscription (select_callback a row).subscribed es := by
  unfold select_callback select_callback_effects
  cases hs : a.subscribed <;> simp [hs] at h
  all_goals
    split_ifs <;>
    simp_all [open_step_display_window, update_number_steps_display, init_accel, reset_n_steps,
      accel_data_service_unsubscribe, open_user_height_window, open_reset_window,
      no_duplicate_subscription]

theorem run_menu_invariant (rows : List Nat) :
    ∀ a : App, a.first_call = (!a.subscribed) →
      (run_menu a rows).first_call = (!(run_menu a rows).subscribed) ∧
      no_duplicate_subscription a.subscribed (menu_trace a rows) = true := by
  induction rows with
  | nil => intro a h; exact ⟨h, rfl⟩
  | cons row rows ih =>
    intro a h
    obtain ⟨hinv, htrace⟩ := select_callback_invariant a row h
    obtain ⟨h1, h2⟩ := ih (select_callback a row) hinv
    exact ⟨h1, by rw [menu_trace, htrace]; exact h2⟩

/-- C6. Starting from `first_call = true` and no subscription, after every
sequence of `select_callback` invocations `first_call` is the negation of
`subscribed`, and in the trace of effects every `init_accel` is performed while
the accelerometer is unsubscribed: two `init_accel` calls are always separated by
the `accel_data_service_unsubscribe` of a RESET. -/
theorem no_duplicate_subscriptions (rows : List Nat) :
    App.init.first_call = true ∧ App.init.subscribed = false ∧
    (run_menu App.init rows).first_call = (!(run_menu App.init rows).subscribed) ∧
    no_duplicate_subscription false (menu_trace App.init rows) = true :=
  ⟨rfl, rfl, run_menu_invariant rows App.init rfl⟩

theorem run_menu_keeps_first_call (rows : List Nat) :
    ∀ a : App, a.first_call = true → (∀ row ∈ rows, row ≠ START_COUNT) →
      (run_menu a rows).first_call = true := by
  induction rows with
  | nil => intro a h _; exact h
  | cons row rows ih =>
    intro a h hrows
    have hrow : row ≠ START_COUNT := hrows row (List.mem_cons_self _ _)
    have hstep : (select_callback a row).first_call = true := by
      unfold select_callback
      rw [if_neg hrow]
      split_ifs <;>
      simp [h, open_user_height_window, open_reset_window, reset_n_steps,
        accel_data_service_unsubscribe]
    exact ih _ hstep (fun r hr => hrows r (List.mem_cons_of_mem _ hr))

/-- C7. From every state, selecting RESET leaves the step count at 0,
`distance_travelled` at 0, `first_call` true and the accelerometer unsubscribed,
with `user_height` unchanged; selecting RESET a second time changes nothing; and
the next START_COUNT selection, whatever other rows are selected in between,
performs `init_accel` and leaves the accelerometer subscribed. -/
theorem reset_restores_start_state (a : App) :
    (select_callback a RESET).n_steps = 0 ∧
    get_n_steps (select_callback a RESET) = 0 ∧
    (select_callback a RESET).distance_travelled = 0 ∧
    (select_callback a RESET).first_call = true ∧
    (select_callback a RESET).subscribed = false ∧
    (select_callback a RESET).user_height = a.user_height ∧
    select_callback (select_callback a RESET) RESET = select_callback a RESET ∧
    Effect.init_accel ∈ select_callback_effects (select_callback a RESET) START_COUNT ∧
    (select_callback (select_callback a RESET) START_COUNT).subscribed = true ∧
    ∀ rows : List Nat, (∀ row ∈ rows, row ≠ START_COUNT) →
      Effect.init_accel ∈
        select_callback_effects (run_menu (select_callback a RESET) rows) START_COUNT ∧
      (select_callback (run_menu (select_callback a RESET) rows) START_COUNT).subscribed
        = true := by
  have hfc : (select_callback a RESET).first_call = true := by
    simp [select_callback, RESET, START_COUNT, CHANGE_HEIGHT, open_reset_window, reset_n_steps,
      accel_data_service_unsubscribe]
  have hstart : ∀ b : App, b.first_call = true →
      Effect.init_accel ∈ select_callback_effects b START_COUNT ∧
      (select_callback b START_COUNT).subscribed = true := by
    intro b hb
    simp [select_callback, select_callback_effects, open_step_display_window,
      update_number_steps_display, init_accel, hb]
  refine ⟨?_, ?_, ?_, hfc, ?_, ?_, ?_, (hstart _ hfc).1, (hstart _ hfc).2, ?_⟩
  · simp [select_callback, RESET, START_COUNT, CHANGE_HEIGHT, open_reset_window, reset_n_steps,
      accel_data_service_unsubscribe]
  · simp [select_callback, RESET, START_COUNT, CHANGE_HEIGHT, open_reset_window, reset_n_steps,
      accel_data_service_unsubscribe, get_n_steps]
  · simp [select_callback, RESET, START_COUNT, CHANGE_HEIGHT, open_reset_window, reset_n_steps,
      accel_data_service_unsubscribe]
  · simp [select_callback, RESET, START_COUNT, CHANGE_HEIGHT, open_reset_window, reset_n_steps,
      accel_data_service_unsubscribe]
  · simp [select_callback, RESET, START_COUNT, CHANGE_HEIGHT, open_reset_window, reset_n_steps,
      accel_data_service_unsubscribe]
  · simp [select_callback, RESET, START_COUNT, CHANGE_HEIGHT, open_reset_window, reset_n_steps,
      accel_data_service_unsubscribe]
  · intro rows hrows
    exact hstart _ (run_menu_keeps_first_call rows _ hfc hrows)

/-- C7 witness: from a counting state, RESET, then CHANGE_HEIGHT and RESET
again, then START_COUNT. -/
theorem reset_restores_start_state_witness :
    (∀ row ∈ [CHANGE_HEIGHT, RESET], row ≠ START_COUNT) ∧
    Effect.init_accel ∈
      select_callback_effects
        (run_menu (select_callback ⟨(1, 70), 703, false, 1000, true, []⟩ RESET)
          [CHANGE_HEIGHT, RESET]) START_COUNT ∧
    (select_callback
        (run_menu (select_callback ⟨(1, 70), 703, false, 1000, true, []⟩ RESET)
          [CHANGE_HEIGHT, RESET]) START_COUNT).subscribed = true :=
  ⟨by decide,
    (reset_restores_start_state ⟨(1, 70), 703, false, 1000, true, []⟩).2.2.2.2.2.2.2.2.2
      [CHANGE_HEIGHT, RESET] (by decide)⟩

/-- C8 (as amended). For RESET, `select_callback` performs, in this order:
`first_call = true`, `reset_n_steps()`, `accel_data_service_unsubscribe()`,
`distance_travelled = 0`, `open_reset_window()`.  The unsubscription is the effect
right after the zeroing of the step count and comes before the zeroing of the
distance; both belong to the same callback invocation, at the end of which the
count is 0 and the accelerometer is unsubscribed. -/
theorem reset_effect_order (a : App) :
    select_callback_effects a RESET =
      [Effect.assign_first_call true, Effect.reset_n_steps,
        Effect.accel_data_service_unsubscribe, Effect.assign_distance_travelled 0,
        Effect.open_reset_window] ∧
    select_callback a RESET = apply_effects a (select_callback_effects a RESET) ∧
    (select_callback_effects a RESET).indexOf Effect.accel_data_service_unsubscribe =
      (select_callback_effects a RESET).indexOf Effect.reset_n_steps + 1 ∧
    (select_callback_effects a RESET).indexOf Effect.accel_data_service_unsubscribe <
      (select_callback_effects a RESET).indexOf (Effect.assign_distance_travelled 0) ∧
    (select_callback a RESET).n_steps = 0 ∧ (select_callback a RESET).subscribed = false := by
  have h : select_callback_effects a RESET =
      [Effect.assign_first_call true, Effect.reset_n_steps,
        Effect.accel_data_service_unsubscribe, Effect.assign_distance_travelled 0,
        Effect.open_reset_window] := rfl
  refine ⟨h, select_callback_eq_apply_effects a RESET, by rw [h]; decide, by rw [h]; decide,
    ?_, ?_⟩
  · simp [select_callback, RESET, START_COUNT, CHANGE_HEIGHT, open_reset_window, reset_n_steps,
      accel_data_service_unsubscribe]
  · simp [select_callback, RESET, START_COUNT, CHANGE_HEIGHT, open_reset_window, reset_n_steps,
      accel_data_service_unsubscribe]

/-- C8 (counterexample). From a state that is counting (1000 steps, subscribed),
RESET performs `reset_n_steps` at position 1 and the unsubscription at position
2: the state after `reset_n_steps` has a zero count while the subscription is
still active. -/
theorem reset_unsubscribes_after_zeroing :
    (select_callback_effects ⟨(1, 70), 703, false, 1000, true, []⟩ RESET).indexOf
      Effect.reset_n_steps = 1 ∧
    (select_callback_effects ⟨(1, 70), 703, false, 1000, true, []⟩ RESET).indexOf
      Effect.accel_data_service_unsubscribe = 2 ∧
    ¬ ((select_callback_effects ⟨(1, 70), 703, false, 1000, true, []⟩ RESET).indexOf
        Effect.accel_data_service_unsubscribe ≤
      (select_callback_effects ⟨(1, 70), 703, false, 1000, true, []⟩ RESET).indexOf
        Effect.reset_n_steps) ∧
    (states_through ⟨(1, 70), 703, false, 1000, true, []⟩
        (select_callback_effects ⟨(1, 70), 703, false, 1000, true, []⟩ RESET)).map
      (fun st => (st.n_steps, st.subscribed)) =
      [(1000, true), (1000, true), (0, true), (0, false), (0, false), (0, false)] := by
  decide

end UserInterface
